import Mathlib

/-!
Shallow embedding of the Mira voice-query segmentation engine
(src/index.ts, class TranscriptionManager and its helpers).

Text is modelled as `List Nat` of Unicode code points; `ofStr` injects a
Lean string literal.  JS string operations used by the source are modelled
on code points: `toLowerCase` on the Basic Latin letters (all wake phrases
and messages are ASCII), the `\s` class as the ECMAScript WhiteSpace plus
LineTerminator set, and the regex engine behaviour of the two wake-word
regexes is reproduced exactly (leftmost-first matching, ordered
alternation, greedy separator runs, `.` not matching line terminators).
-/

namespace Mira

/-- Code points of a string literal. -/
def ofStr (s : String) : List Nat := s.data.map Char.toNat

/-- JS `String.prototype.toLowerCase`, modelled on the Basic Latin letters
(the wake phrases and all queries of interest are ASCII). -/
def toLowerN (n : Nat) : Nat := if 65 ≤ n ∧ n ≤ 90 then n + 32 else n

/-- The characters removed by the cleaning step `replace(/[.,!?;:]/g, '')`
in `handleTranscription` and `endsWithWakeWord`. -/
def isPunctN (n : Nat) : Bool :=
  n == 46 || n == 44 || n == 33 || n == 63 || n == 59 || n == 58

/-- The ECMAScript `\s` character class (as matched by `replace(/\s+/g, ' ')`
and by `String.prototype.trim`). -/
def isWsN (n : Nat) : Bool :=
  n == 9 || n == 10 || n == 11 || n == 12 || n == 13 || n == 32 || n == 160 ||
  n == 5760 || n == 8192 || n == 8193 || n == 8194 || n == 8195 || n == 8196 ||
  n == 8197 || n == 8198 || n == 8199 || n == 8200 || n == 8201 || n == 8202 ||
  n == 8232 || n == 8233 || n == 8239 || n == 8287 || n == 12288 || n == 65279

/-- ECMAScript line terminators: `.` in a regex without the `s` flag matches
any character except these. -/
def isLineTermN (n : Nat) : Bool :=
  n == 10 || n == 13 || n == 8232 || n == 8233

/-- `replace(/\s+/g, ' ')`: every maximal run of whitespace becomes a single
space.  The boolean records whether the previous character was whitespace. -/
def collapseAux : List Nat → Bool → List Nat
  | [], _ => []
  | c :: rest, prevWs =>
    if isWsN c then
      (if prevWs then collapseAux rest true else 32 :: collapseAux rest true)
    else c :: collapseAux rest false

def collapseWs (l : List Nat) : List Nat := collapseAux l false

/-- `String.prototype.trim`: drop leading and trailing whitespace. -/
def trimN (l : List Nat) : List Nat :=
  ((l.dropWhile (fun c => isWsN c)).reverse.dropWhile (fun c => isWsN c)).reverse

/-- The text cleaning used by `handleTranscription` and `endsWithWakeWord`:
`text.toLowerCase().replace(/[.,!?;:]/g, '').replace(/\s+/g, ' ').trim()`. -/
def cleanN (l : List Nat) : List Nat :=
  trimN (collapseWs ((l.map toLowerN).filter (fun c => !isPunctN c)))

/-- The wake-word list `explicitWakeWords` of src/index.ts, verbatim
(duplicates included). -/
def explicitWakeWordsStr : List String :=
  ["hey mira", "he mira", "hey mara", "he mara", "hey mirror", "he mirror",
   "hey miara", "he miara", "hey mia", "he mia", "hey mural", "he mural",
   "hey amira", "hey myra", "he myra", "hay mira", "hai mira", "hey-mira",
   "he-mira", "heymira", "heymara", "hey mirah", "he mirah", "hey meera", "he meera",
   "Amira", "amira", "a mira", "a mirror", "hey miller", "he miller", "hey milla", "he milla", "hey mila", "he mila",
   "hey miwa", "he miwa", "hey mora", "he mora", "hey moira", "he moira",
   "hey miera", "he miera", "hey mura", "he mura", "hey maira", "he maira",
   "hey meara", "he meara", "hey mara", "he mara", "hey mina", "he mina",
   "hey mirra", "he mirra", "hey mir", "he mir", "hey miro", "he miro",
   "hey miruh", "he miruh", "hey meerah", "he meerah", "hey meira", "he meira",
   "hei mira", "hi mira", "hey mere", "he mere", "hey murra", "he murra",
   "hey mera", "he mera", "hey neera", "he neera", "hey murah", "he murah",
   "hey mear", "he mear", "hey miras", "he miras", "hey miora", "he miora", "hey miri", "he miri",
   "hey maura", "he maura", "hey maya", "he maya", "hey moora", "he moora",
   "hey mihrah", "he mihrah", "ay mira", "ey mira", "yay mira", "hey mihra",
   "hey mera", "hey mira", "hey mila", "hey mirra"]

/-- The wake words as code-point lists (used by the case-sensitive
`cleanedText.includes(word)` check). -/
def explicitWakeWords : List (List Nat) := explicitWakeWordsStr.map ofStr

/-- JS `String.prototype.split(' ')` on a code-point list. -/
def splitSpAux : List Nat → List Nat → List (List Nat)
  | [], acc => [acc.reverse]
  | c :: rest, acc =>
    if c = 32 then acc.reverse :: splitSpAux rest [] else splitSpAux rest (c :: acc)

def splitSp (l : List Nat) : List (List Nat) := splitSpAux l []

/-- The wake words split into their space-separated words, in list order,
mirroring `word.split(' ')` in `removeWakeWord`. -/
def wakePhrases : List (List (List Nat)) :=
  explicitWakeWordsStr.map (fun s => splitSp (ofStr s))

/-- Separator class `[\s,\.]` of the `removeWakeWord` regex. -/
def isSepN (c : Nat) : Bool := isWsN c || c == 44 || c == 46

/-- Case-insensitive literal match of one word at the head of the text;
returns the remainder on success.  Models a case-insensitive regex literal. -/
def matchWord (t w : List Nat) : Option (List Nat) :=
  if (t.take w.length).map toLowerN = w.map toLowerN then some (t.drop w.length)
  else none

/-- Match the words of one wake phrase at the head of the text with `[\s,\.]*`
between consecutive words.  The separator star is greedy; since every wake
word starts with a letter (never a separator), the greedy maximal run is the
unique viable choice, so no backtracking is needed. -/
def matchPhraseWords : List Nat → List (List Nat) → Option (List Nat)
  | t, [] => some t
  | t, [w] => matchWord t w
  | t, w :: ws =>
    match matchWord t w with
    | none => none
    | some rest => matchPhraseWords (rest.dropWhile (fun c => isSepN c)) ws

/-- Try the alternation `(?:p₁|p₂|…)` of all wake phrases at the head of the
text, in list order (JS alternation is ordered), then consume the trailing
`[\s,\.]*` greedily.  Returns the remainder after the whole match. -/
def matchAnyPhrase (t : List Nat) : Option (List Nat) :=
  wakePhrases.findSome? (fun ws =>
    (matchPhraseWords t ws).map (fun rest => rest.dropWhile (fun c => isSepN c)))

/-- Scan for the leftmost position at which a wake phrase matches: returns
the prefix before the match and the remainder after it.  This reproduces the
regex search order for `/.*?(?:…)[\s,\.]*/i`: the lazy `.*?` makes the
engine take the smallest wake-phrase position. -/
def rwwScan : List Nat → Option (List Nat × List Nat)
  | [] => none
  | c :: rest =>
    match matchAnyPhrase (c :: rest) with
    | some rem => some ([], rem)
    | none => (rwwScan rest).map (fun pr => (c :: pr.1, pr.2))

/-- The part of the prefix that the match keeps: everything up to and
including the last line terminator before the wake phrase, because `.` does
not match line terminators, so the actual match start is just after the last
line terminator preceding the phrase. -/
def uptoLastTerm (l : List Nat) : List Nat :=
  (l.reverse.dropWhile (fun c => !isLineTermN c)).reverse

/-- `TranscriptionManager.removeWakeWord`: replace the first match of
`/.*?(?:wake patterns)[\s,\.]*/i` by the empty string and trim the result.
If no wake phrase occurs anywhere, `replace` leaves the text unchanged and
only the final `.trim()` applies. -/
def removeWakeWord (t : List Nat) : List Nat :=
  match rwwScan t with
  | none => trimN t
  | some pr => trimN (uptoLastTerm pr.1 ++ pr.2)

/-- `cleanedText.includes(word)` over all wake words (case-sensitive, so the
entry `"Amira"` can never match the lower-cased cleaned text). -/
def hasWakeWordB (cleaned : List Nat) : Bool :=
  explicitWakeWords.any (fun word => decide (word <:+: cleaned))

/-- `TranscriptionManager.endsWithWakeWord`: clean the text the same way as
`handleTranscription`, then test each wake word anchored at the end with the
`i` flag — i.e. the cleaned (lower-case) text ends with the lower-cased word. -/
def endsWithWakeWordB (t : List Nat) : Bool :=
  explicitWakeWords.any (fun word => decide (word.map toLowerN <:+ cleanN t))

/-- A transcription fragment as consumed by `handleTranscription`
(`transcriptionData.text`, `transcriptionData.isFinal`). -/
structure Frag where
  text : List Nat
  isFinal : Bool
deriving DecidableEq

/-- A pending debounce `setTimeout` scheduled by `handleTranscription`:
its handle, the captured raw fragment text and the chosen duration. -/
structure DebounceTimer where
  handle : Nat
  rawText : List Nat
  durationMs : Nat
deriving DecidableEq

/-- A pending side-effect `setTimeout` scheduled by the `timer_set` branch
of `processQuery`. -/
structure SideTimer where
  handle : Nat
  timerId : List Nat
  label : Option (List Nat)
  delayMs : Nat
deriving DecidableEq

/-- The mutable fields of one `TranscriptionManager` instance.
`transcriptionStartTime = 0` means unset (the source uses `0` the same way).
`activeTimers` is the `timerId -> timeoutId` map (association list in
insertion order, as a JS `Map`).  `lastUserTranscript` is the
`TranscriptProcessor` state needed by the claims.

Modelled from the spec: the `TranscriptProcessor` of `./utils` is not in
the sources; per §4.2 only its `lastFragmentText` tracking is modelled —
`processString(text, _)` records `text` as the last fragment,
`getLastUserTranscript()` returns it, and `clear()` resets it to empty. -/
structure Sess where
  isProcessingQuery : Bool
  isListeningToQuery : Bool
  timeoutId : Option Nat
  transcriptionStartTime : Nat
  activeTimers : List (List Nat × Nat)
  lastUserTranscript : List Nat
deriving DecidableEq

/-- The session together with the host timer queues: the pending debounce
timeouts, the pending side-effect timeouts, the pending cool-down timeout of
the `finally` block, and a fresh-handle counter for `setTimeout`. -/
structure World where
  sess : Sess
  debounce : List DebounceTimer
  sidePending : List SideTimer
  cooldown : Option Nat
  nextHandle : Nat
deriving DecidableEq

/-- Observable events of one run, in program order: the `await` suspension
points, every `showTextWall` call (`showWrapped` when the text goes through
`wrapText(text, width)`, `showPlain` when it is passed directly), the
re-entrancy guard return, the setting of `isProcessingQuery`, the
registration of a side-effect timer, and the scheduling of the 2 s
cool-down that later clears `isProcessingQuery`. -/
inductive Ev where
  | awaitFetch (durationSeconds : Nat)
  | showWrapped (text : List Nat) (width : Nat) (durationMs : Nat)
  | showPlain (text : List Nat) (durationMs : Nat)
  | guardReturn
  | setProcessing
  | awaitAgent (query : List Nat)
  | registerTimer (timerId : List Nat) (delayMs : Nat)
  | scheduleCooldown (delayMs : Nat)
deriving DecidableEq

/-- `if (this.timeoutId) clearTimeout(this.timeoutId)`: drop the pending
debounce timeout referenced by the handle, if any. -/
def clearDebounce (deb : List DebounceTimer) (tid : Option Nat) : List DebounceTimer :=
  match tid with
  | some h => deb.filter (fun t => t.handle != h)
  | none => deb

/-- `TranscriptionManager.handleTranscription`, lines 102-176 of
src/index.ts, as a transition on the world, emitting its display calls. -/
def handleTranscription (w : World) (frag : Frag) (now : Nat) : World × List Ev :=
  if w.sess.isProcessingQuery then (w, [])
  else
    let cleanedText := cleanN frag.text
    let hasWakeWord := hasWakeWordB cleanedText
    if !hasWakeWord && !w.sess.isListeningToQuery then (w, [])
    else
      let startTime := if w.sess.transcriptionStartTime = 0 then now
                       else w.sess.transcriptionStartTime
      let displayText := removeWakeWord frag.text
      let branch :=
        if (trimN displayText).length = 0 then
          ((if (trimN w.sess.lastUserTranscript).length ≠ 0 then ([] : List Nat)
            else w.sess.lastUserTranscript),
           [Ev.showPlain (ofStr "Listening...") 10000])
        else
          (displayText,
           [Ev.showPlain (ofStr "Listening...\n\n" ++ trimN displayText) 10000])
      let timerDuration : Nat :=
        if frag.isFinal then
          (if endsWithWakeWordB cleanedText then 10000 else 1500)
        else 3000
      let deb1 := clearDebounce w.debounce w.sess.timeoutId
      let h := w.nextHandle
      ({ w with
         sess := { w.sess with
           isListeningToQuery := true
           transcriptionStartTime := startTime
           lastUserTranscript := branch.1
           timeoutId := some h }
         debounce := deb1 ++ [⟨h, frag.text, timerDuration⟩]
         nextHandle := h + 1 },
       branch.2)

/-- The duration scheduled by `handleTranscription` for a fragment — the
three policy constants of lines 146-165. -/
def codeDur (frag : Frag) : Nat :=
  if frag.isFinal then (if endsWithWakeWordB frag.text then 10000 else 1500)
  else 3000

/-- Process a list of fragments in arrival order (each with its clock
reading), as the host delivers them to `handleTranscription`. -/
def stepFrags : World → List (Frag × Nat) → World
  | w, [] => w
  | w, p :: rest => stepFrags (handleTranscription w p.1 p.2).1 rest

/-- The debounce-timer invariant: the pending debounce timeouts are exactly
the one referenced by `timeoutId` (or none). -/
def dbInvB (w : World) : Bool :=
  match w.sess.timeoutId with
  | none => w.debounce.isEmpty
  | some h => w.debounce.map (fun t => t.handle) == [h]

/-- `Math.max(1, Math.ceil(ms / 1000))` with the fallbacks of lines 183-189:
the elapsed listening time when `transcriptionStartTime` is set, else the
timer duration when truthy, else 3.  (The clock is assumed monotone, so the
`Nat` subtraction is the JS one.) -/
def durSec (startTime now timerDuration : Nat) : Nat :=
  if 0 < startTime then max 1 ((now - startTime + 999) / 1000)
  else if timerDuration ≠ 0 then max 1 ((timerDuration + 999) / 1000)
  else 3

/-- Outcome of the transcript fetch of lines 197-232: `fail` covers a
network error, a non-OK status, an empty body and a JSON parse error (they
all reach the same catch block); `ok` carries the parsed response, with
`none` for a falsy response or a missing/non-array `segments` field and
`some segs` for a well-formed segments list (each segment's `text`). -/
inductive FetchResult where
  | fail
  | ok (segments : Option (List (List Nat)))
deriving DecidableEq

/-- Outcome of `miraAgent.handleContext` and of the response interpretation
of lines 276-329: an exception, a falsy response, a string with no
recognised `timer_set` event (displayed as plain text), or a string parsing
to `{event: 'timer_set', duration, timerId, label?}` (which still carries
the raw string, displayed as plain text when `duration` is falsy). -/
inductive AgentResult where
  | err
  | nullResp
  | plain (s : List Nat)
  | timerSet (raw : List Nat) (duration : Nat) (timerId : List Nat)
      (label : Option (List Nat))
deriving DecidableEq

/-- The external collaborators' behaviour for one finalize run. -/
structure QueryEnv where
  fetch : FetchResult
  agent : AgentResult
deriving DecidableEq

def fetchErrMsg : List Nat :=
  ofStr "Sorry, there was an error retrieving your transcript. Please try again."

def formatErrMsg : List Nat :=
  ofStr "Sorry, the transcript format was invalid. Please try again."

def noQueryMsg : List Nat := ofStr "No query provided."

def noAnswerMsg : List Nat := ofStr "Sorry, I couldn't find an answer to that."

def procErrMsg : List Nat := ofStr "Sorry, there was an error processing your request."

/-- The `${labelText}` interpolation: ` for "label"` when the label is
truthy, empty otherwise. -/
def labelTextOf : Option (List Nat) → List Nat
  | none => []
  | some l => ofStr " for \"" ++ l ++ ofStr "\""

def timerSetMsg (d : Nat) (lbl : Option (List Nat)) : List Nat :=
  ofStr "Timer set" ++ labelTextOf lbl ++ ofStr " for " ++ ofStr (Nat.repr d) ++
    ofStr " seconds."

def timerUpMsg (lbl : Option (List Nat)) : List Nat :=
  ofStr "Timer" ++ labelTextOf lbl ++ ofStr " is up!"

/-- JS `Map.prototype.set`: replace the value of an existing key in place,
otherwise append the new entry. -/
def mapSet (m : List (List Nat × Nat)) (k : List Nat) (v : Nat) :
    List (List Nat × Nat) :=
  if m.any (fun e => e.1 == k) then m.map (fun e => if e.1 == k then (k, v) else e)
  else m ++ [(k, v)]

/-- The `try` block of `processQuery` (lines 252-336): wake-word stripping,
the empty-query check, the agent call and the response interpretation.
`w1` is the state with `isProcessingQuery` already set. -/
def tryBlock (w1 : World) (rawCombined : List Nat) (agent : AgentResult) :
    World × List Ev :=
  let query := removeWakeWord rawCombined
  if (trimN query).length = 0 then
    (w1, [Ev.showWrapped noQueryMsg 30 5000])
  else
    let displayQuery := if 60 < query.length then trimN (query.take 60) ++ ofStr " ..."
                        else query
    let ev1 := Ev.showWrapped (ofStr "Processing query: " ++ displayQuery) 30 8000
    match agent with
    | .err => (w1, [ev1, Ev.awaitAgent query, Ev.showWrapped procErrMsg 30 5000])
    | .nullResp => (w1, [ev1, Ev.awaitAgent query, Ev.showWrapped noAnswerMsg 30 5000])
    | .plain s => (w1, [ev1, Ev.awaitAgent query, Ev.showWrapped s 30 8000])
    | .timerSet raw d tid lbl =>
      if d ≠ 0 then
        let h := w1.nextHandle
        ({ w1 with
           sess := { w1.sess with activeTimers := mapSet w1.sess.activeTimers tid h }
           sidePending := w1.sidePending ++ [⟨h, tid, lbl, d * 1000⟩]
           nextHandle := h + 1 },
         [ev1, Ev.awaitAgent query, Ev.showWrapped (timerSetMsg d lbl) 30 5000,
          Ev.registerTimer tid (d * 1000)])
      else (w1, [ev1, Ev.awaitAgent query, Ev.showWrapped raw 30 8000])

/-- The `finally` block of `processQuery` (lines 337-355): clear the start
time, cancel and clear the debounce timeout, reset the listening flag,
clear the transcript processor, and schedule the 2 s cool-down that later
clears `isProcessingQuery`. -/
def finallyBlock (w : World) : World :=
  { w with
    sess := { w.sess with
      transcriptionStartTime := 0
      timeoutId := none
      isListeningToQuery := false
      lastUserTranscript := [] }
    debounce := clearDebounce w.debounce w.sess.timeoutId
    cooldown := some 2000 }

/-- `TranscriptionManager.processQuery` (lines 181-356).  The early returns
of the fetch catch block and of the segments validation happen before the
`try`/`finally`, so they bypass both the guard and the state reset. -/
def processQuery (w : World) (_rawText : List Nat) (timerDuration : Nat)
    (env : QueryEnv) (now : Nat) : World × List Ev :=
  let ds := durSec w.sess.transcriptionStartTime now timerDuration
  match env.fetch with
  | .fail => (w, [Ev.awaitFetch ds, Ev.showWrapped fetchErrMsg 30 5000])
  | .ok none => (w, [Ev.awaitFetch ds, Ev.showWrapped formatErrMsg 30 5000])
  | .ok (some segs) =>
    if w.sess.isProcessingQuery then (w, [Ev.awaitFetch ds, Ev.guardReturn])
    else
      let w1 : World := { w with sess := { w.sess with isProcessingQuery := true } }
      let r := tryBlock w1 (List.intercalate [32] segs) env.agent
      (finallyBlock r.1,
       Ev.awaitFetch ds :: Ev.setProcessing :: (r.2 ++ [Ev.scheduleCooldown 2000]))

/-- Firing of the cool-down timeout scheduled by the `finally` block
(line 352): clears `isProcessingQuery`. -/
def fireCooldown (w : World) : World :=
  { w with sess := { w.sess with isProcessingQuery := false }, cooldown := none }

/-- Firing of a pending side-effect timeout (the callback of line 300):
shows the "timer is up" notice and deletes its id from `activeTimers`;
a cancelled (no longer pending) handle cannot fire. -/
def fireSideTimer (w : World) (h : Nat) : Option (World × List Ev) :=
  match w.sidePending.find? (fun t => t.handle == h) with
  | none => none
  | some t =>
    some ({ w with
            sidePending := w.sidePending.filter (fun u => u.handle != h)
            sess := { w.sess with
              activeTimers := w.sess.activeTimers.filter (fun e => e.1 != t.timerId) } },
          [Ev.showWrapped (timerUpMsg t.label) 30 8000])

/-- `TranscriptionManager.cleanup` (lines 397-406): cancel the pending
debounce timeout and every timeout registered in `activeTimers`, then clear
the registry. -/
def cleanup (w : World) : World :=
  { w with
    debounce := clearDebounce w.debounce w.sess.timeoutId
    sidePending := w.sidePending.filter
      (fun t => !(w.sess.activeTimers.any (fun e => e.2 == t.handle)))
    sess := { w.sess with activeTimers := [] } }

/-- A fresh session, as built by the `TranscriptionManager` constructor. -/
def sess0 : Sess :=
  { isProcessingQuery := false, isListeningToQuery := false, timeoutId := none,
    transcriptionStartTime := 0, activeTimers := [], lastUserTranscript := [] }

def w0 : World :=
  { sess := sess0, debounce := [], sidePending := [], cooldown := none, nextHandle := 0 }

/-- A session in the middle of a listening window: a debounce timeout with
handle 7 is pending, the start time is set and text has been displayed. -/
def sessA : Sess :=
  { isProcessingQuery := false, isListeningToQuery := true, timeoutId := some 7,
    transcriptionStartTime := 5, activeTimers := [], lastUserTranscript := ofStr "x" }

def wA : World :=
  { sess := sessA, debounce := [⟨7, ofStr "hey mira hi", 1500⟩], sidePending := [],
    cooldown := none, nextHandle := 8 }

def envOkPlain : QueryEnv :=
  { fetch := .ok (some [ofStr "hey mira what time is it"]),
    agent := .plain (ofStr "It is noon.") }

/-- A run whose agent answer is a `timer_set` event: 5 seconds, id "t1". -/
def envTimer : QueryEnv :=
  { fetch := .ok (some [ofStr "hey mira set a timer"]),
    agent := .timerSet (ofStr "raw") 5 (ofStr "t1") none }

def rTimer : World := (processQuery wA [] 1500 envTimer 2005).1

/-- No two adjacent whitespace characters (the shape of collapsed text). -/
def noAdj (a b : Nat) : Prop := ¬(isWsN a = true ∧ isWsN b = true)

end Mira

namespace Mira

/-- C3: whenever `isProcessingQuery` is true, `handleTranscription` returns
at once: the whole world (session fields, formatter state, pending timers)
is unchanged and no display event is emitted, so no debounce timer is
scheduled or rearmed. -/
theorem C3_processing_ignores_fragment (w : World) (frag : Frag) (now : Nat)
    (h : w.sess.isProcessingQuery = true) :
    handleTranscription w frag now = (w, []) := by
  simp [handleTranscription, h]

/-- Witness for C3 at a concrete processing state and fragment. -/
theorem C3_witness :
    handleTranscription { wA with sess := { sessA with isProcessingQuery := true } }
      ⟨ofStr "hey mira", true⟩ 42
      = ({ wA with sess := { sessA with isProcessingQuery := true } }, []) :=
  C3_processing_ignores_fragment _ _ _ rfl

/-- C7 (code bug): on a fresh session whose last displayed fragment is
empty, a fragment that is only the wake phrase still triggers a
`showTextWall("Listening...")` redraw — the suppression the code's own
comment announces (and the claim states) does not happen, because the
display call is outside the guard. -/
theorem C7_placeholder_always_redrawn :
    w0.sess.lastUserTranscript = [] ∧
    (trimN (removeWakeWord (ofStr "hey mira"))).length = 0 ∧
    (handleTranscription w0 ⟨ofStr "hey mira", false⟩ 1000).2
      = [Ev.showPlain (ofStr "Listening...") 10000] := by
  refine ⟨rfl, by decide, by decide⟩

/-- The `try` block never touches the debounce timeout, its handle, or the
processing flag. -/
theorem tryBlock_fields (w1 : World) (rc : List Nat) (ag : AgentResult) :
    (tryBlock w1 rc ag).1.debounce = w1.debounce ∧
    (tryBlock w1 rc ag).1.sess.timeoutId = w1.sess.timeoutId ∧
    (tryBlock w1 rc ag).1.sess.isProcessingQuery = w1.sess.isProcessingQuery := by
  cases ag <;> simp [tryBlock] <;> (try split) <;> (try split) <;> simp

/-- Under the debounce invariant, cancelling the referenced timeout leaves
no pending debounce timeout. -/
theorem clearDebounce_of_inv (w : World) (hinv : dbInvB w = true) :
    clearDebounce w.debounce w.sess.timeoutId = [] := by
  unfold dbInvB at hinv
  unfold clearDebounce
  cases hT : w.sess.timeoutId with
  | none =>
    rw [hT] at hinv
    simpa [List.isEmpty_iff] using hinv
  | some h =>
    rw [hT] at hinv
    cases hD : w.debounce with
    | nil => simp
    | cons t rest =>
      rw [hD] at hinv
      simp only [List.map_cons, beq_iff_eq, List.cons.injEq] at hinv
      obtain ⟨h1, h2⟩ := hinv
      cases rest with
      | nil => simp [h1]
      | cons u rest2 => simp at h2

/-- C2 (counterexample): in a successful run the first trace event is the
transcript-fetch await and `isProcessingQuery` is only set afterwards; and
a run entered while `isProcessingQuery` is already true still performs the
transcript fetch (an external side effect) before returning at the guard. -/
theorem C2_counterexample :
    ((processQuery wA [] 1500 envOkPlain 2005).2.head? = some (Ev.awaitFetch 2)) ∧
    (Ev.setProcessing ∈ (processQuery wA [] 1500 envOkPlain 2005).2.drop 1) ∧
    ((processQuery { wA with sess := { sessA with isProcessingQuery := true } }
        [] 1500 envOkPlain 2005).2
      = [Ev.awaitFetch 2, Ev.guardReturn]) := by
  refine ⟨by decide, by decide, by decide⟩

/-- C2 (amended): `isProcessingQuery` is set synchronously after the
transcript fetch and validation and before everything else in the run — in
particular before the agent await, which can only occur later in the trace;
and a run entered with `isProcessingQuery = true` leaves the world
unchanged, never sets the flag and never awaits the agent (though it does
perform the fetch first). -/
theorem C2_amended (w : World) (rawT : List Nat) (td now : Nat)
    (segs : List (List Nat)) (ag : AgentResult) :
    (w.sess.isProcessingQuery = false →
      ∃ evs, (processQuery w rawT td ⟨.ok (some segs), ag⟩ now).2 =
        Ev.awaitFetch (durSec w.sess.transcriptionStartTime now td)
          :: Ev.setProcessing :: evs)
    ∧ (w.sess.isProcessingQuery = true → ∀ env : QueryEnv,
        (processQuery w rawT td env now).1 = w
        ∧ Ev.setProcessing ∉ (processQuery w rawT td env now).2
        ∧ ∀ q, Ev.awaitAgent q ∉ (processQuery w rawT td env now).2) := by
  constructor
  · intro hproc
    simp [processQuery, hproc]
  · intro hproc env
    obtain ⟨f, a⟩ := env
    cases f with
    | fail => simp [processQuery]
    | ok o =>
      cases o with
      | none => simp [processQuery]
      | some segs2 => simp [processQuery, hproc]

/-- Witness for C2 (amended) at a concrete in-flight run. -/
theorem C2_amended_witness :
    ∃ evs, (processQuery wA [] 1500 ⟨.ok (some [ofStr "hey mira what time is it"]),
        .plain (ofStr "It is noon.")⟩ 2005).2 =
      Ev.awaitFetch (durSec wA.sess.transcriptionStartTime 2005 1500)
        :: Ev.setProcessing :: evs :=
  (C2_amended wA [] 1500 2005 [ofStr "hey mira what time is it"]
    (.plain (ofStr "It is noon."))).1 rfl

/-- C1 (counterexample): a finalize run whose transcript fetch fails
returns early, leaving the whole session state untouched: the start time is
still set, the debounce timeout is still pending, the session is still
listening, the formatter is not cleared, and no cool-down is scheduled. -/
theorem C1_counterexample :
    ((processQuery wA [] 1500 ⟨.fail, .plain []⟩ 2005).1 = wA) ∧
    wA.sess.transcriptionStartTime = 5 ∧
    wA.sess.timeoutId = some 7 ∧
    wA.debounce ≠ [] ∧
    wA.sess.isListeningToQuery = true ∧
    wA.sess.lastUserTranscript ≠ [] ∧
    ((processQuery wA [] 1500 ⟨.fail, .plain []⟩ 2005).1.cooldown = none) ∧
    Ev.scheduleCooldown 2000 ∉ (processQuery wA [] 1500 ⟨.fail, .plain []⟩ 2005).2 := by
  refine ⟨by decide, rfl, rfl, by decide, rfl, by decide, by decide, by decide⟩

/-- C1 (amended): in every finalize run that passes the transcript fetch
and the segments validation — covering the empty-query, agent-success,
null-response, agent-error and timer outcomes — the `finally` block resets
the session: the start time is cleared, the debounce timeout is cancelled
and its handle cleared, the formatter is cleared, `isListeningToQuery` is
false, and a 2 s cool-down is scheduled whose firing clears
`isProcessingQuery` (which stays true until then). -/
theorem C1_amended (w : World) (rawT : List Nat) (td now : Nat)
    (segs : List (List Nat)) (ag : AgentResult)
    (hproc : w.sess.isProcessingQuery = false) (hinv : dbInvB w = true) :
    ((processQuery w rawT td ⟨.ok (some segs), ag⟩ now).1.sess.transcriptionStartTime = 0) ∧
    ((processQuery w rawT td ⟨.ok (some segs), ag⟩ now).1.sess.timeoutId = none) ∧
    ((processQuery w rawT td ⟨.ok (some segs), ag⟩ now).1.debounce = []) ∧
    ((processQuery w rawT td ⟨.ok (some segs), ag⟩ now).1.sess.isListeningToQuery = false) ∧
    ((processQuery w rawT td ⟨.ok (some segs), ag⟩ now).1.sess.lastUserTranscript = []) ∧
    ((processQuery w rawT td ⟨.ok (some segs), ag⟩ now).1.cooldown = some 2000) ∧
    ((processQuery w rawT td ⟨.ok (some segs), ag⟩ now).1.sess.isProcessingQuery = true) ∧
    ((fireCooldown (processQuery w rawT td ⟨.ok (some segs), ag⟩ now).1).sess.isProcessingQuery
        = false) ∧
    ((processQuery w rawT td ⟨.ok (some segs), ag⟩ now).2.getLast?
        = some (Ev.scheduleCooldown 2000)) := by
  have hf := tryBlock_fields { w with sess := { w.sess with isProcessingQuery := true } }
    (List.intercalate [32] segs) ag
  have hpq : processQuery w rawT td ⟨.ok (some segs), ag⟩ now
      = (finallyBlock (tryBlock { w with sess := { w.sess with isProcessingQuery := true } }
            (List.intercalate [32] segs) ag).1,
         Ev.awaitFetch (durSec w.sess.transcriptionStartTime now td) :: Ev.setProcessing ::
           ((tryBlock { w with sess := { w.sess with isProcessingQuery := true } }
              (List.intercalate [32] segs) ag).2 ++ [Ev.scheduleCooldown 2000])) := by
    simp [processQuery, hproc]
  rw [hpq]
  refine ⟨rfl, rfl, ?_, rfl, rfl, rfl, hf.2.2, rfl, ?_⟩
  · show clearDebounce _ _ = []
    rw [hf.1, hf.2.1]
    exact clearDebounce_of_inv w hinv
  · rw [show ∀ (a b : Ev) (l : List Ev) (x : Ev),
        (a :: b :: (l ++ [x]) : List Ev) = (a :: b :: l) ++ [x] from fun a b l x => rfl]
    exact List.getLast?_concat _

/-- Witness for C1 (amended) at a concrete successful run. -/
theorem C1_amended_witness :
    ((processQuery wA [] 1500 ⟨.ok (some [ofStr "hey mira what time is it"]),
        .plain (ofStr "It is noon.")⟩ 2005).1.sess.transcriptionStartTime = 0) ∧
    ((processQuery wA [] 1500 ⟨.ok (some [ofStr "hey mira what time is it"]),
        .plain (ofStr "It is noon.")⟩ 2005).1.sess.timeoutId = none) ∧
    ((processQuery wA [] 1500 ⟨.ok (some [ofStr "hey mira what time is it"]),
        .plain (ofStr "It is noon.")⟩ 2005).1.debounce = []) ∧
    ((processQuery wA [] 1500 ⟨.ok (some [ofStr "hey mira what time is it"]),
        .plain (ofStr "It is noon.")⟩ 2005).1.sess.isListeningToQuery = false) ∧
    ((processQuery wA [] 1500 ⟨.ok (some [ofStr "hey mira what time is it"]),
        .plain (ofStr "It is noon.")⟩ 2005).1.sess.lastUserTranscript = []) ∧
    ((processQuery wA [] 1500 ⟨.ok (some [ofStr "hey mira what time is it"]),
        .plain (ofStr "It is noon.")⟩ 2005).1.cooldown = some 2000) ∧
    ((processQuery wA [] 1500 ⟨.ok (some [ofStr "hey mira what time is it"]),
        .plain (ofStr "It is noon.")⟩ 2005).1.sess.isProcessingQuery = true) ∧
    ((fireCooldown (processQuery wA [] 1500 ⟨.ok (some [ofStr "hey mira what time is it"]),
        .plain (ofStr "It is noon.")⟩ 2005).1).sess.isProcessingQuery = false) ∧
    ((processQuery wA [] 1500 ⟨.ok (some [ofStr "hey mira what time is it"]),
        .plain (ofStr "It is noon.")⟩ 2005).2.getLast?
        = some (Ev.scheduleCooldown 2000)) :=
  C1_amended wA [] 1500 2005 [ofStr "hey mira what time is it"]
    (.plain (ofStr "It is noon.")) rfl (by decide)

/-- C8: a finalize run (not absorbed by the re-entrancy guard) whose
well-formed segments list joins and wake-strips to an empty query — in
particular an empty `segments: []` — shows the "No query provided." message
and never awaits the agent. -/
theorem C8_empty_query_no_agent_call (w : World) (rawT : List Nat) (td now : Nat)
    (segs : List (List Nat)) (ag : AgentResult)
    (hproc : w.sess.isProcessingQuery = false)
    (hempty : (trimN (removeWakeWord (List.intercalate [32] segs))).length = 0) :
    (Ev.showWrapped noQueryMsg 30 5000 ∈ (processQuery w rawT td ⟨.ok (some segs), ag⟩ now).2) ∧
    ∀ q, Ev.awaitAgent q ∉ (processQuery w rawT td ⟨.ok (some segs), ag⟩ now).2 := by
  simp [processQuery, hproc, tryBlock, hempty]

/-- Witness for C8 at the concrete `segments: []` response. -/
theorem C8_witness :
    (Ev.showWrapped noQueryMsg 30 5000
        ∈ (processQuery wA [] 1500 ⟨.ok (some []), .plain []⟩ 2005).2) ∧
    ∀ q, Ev.awaitAgent q ∉ (processQuery wA [] 1500 ⟨.ok (some []), .plain []⟩ 2005).2 :=
  C8_empty_query_no_agent_call wA [] 1500 2005 [] (.plain []) rfl (by decide)

/-- `find?` skips a region with no match. -/
theorem find?_append_none {α : Type} (p : α → Bool) (l1 l2 : List α)
    (h : l1.find? p = none) : (l1 ++ l2).find? p = l2.find? p := by
  induction l1 with
  | nil => rfl
  | cons a t ih =>
    rw [List.cons_append, List.find?_cons] at *
    cases hp : p a with
    | true => simp [hp] at h
    | false =>
      simp only [hp] at h ⊢
      exact ih h

/-- A handle with no pending side-effect timeout cannot fire. -/
theorem fireSideTimer_none (w : World) (h : Nat)
    (hf : w.sidePending.find? (fun t => t.handle == h) = none) :
    fireSideTimer w h = none := by
  unfold fireSideTimer
  rw [hf]

/-- Firing a pending side-effect timeout: the resulting world and notice. -/
theorem fireSideTimer_some (w : World) (h : Nat) (t : SideTimer)
    (hf : w.sidePending.find? (fun u => u.handle == h) = some t) :
    fireSideTimer w h = some
      ({ w with
         sidePending := w.sidePending.filter (fun u => u.handle != h)
         sess := { w.sess with
           activeTimers := w.sess.activeTimers.filter (fun e => e.1 != t.timerId) } },
       [Ev.showWrapped (timerUpMsg t.label) 30 8000]) := by
  unfold fireSideTimer
  rw [hf]

/-- C9: an agent response parsing to a `timer_set` event with a truthy
duration `d` and identifier `tid` registers exactly one entry under `tid`
in `activeTimers`, backed by exactly one pending side-effect timeout with
delay `d * 1000` ms; firing that timeout shows the "timer is up" notice
and removes both the pending timeout and the registry entry (so it cannot
fire twice); and a session `cleanup` before it fires cancels the timeout
and empties the registry, after which the timeout can no longer fire. -/
theorem C9_timer_set_lifecycle (w r : World) (rawT raw tid : List Nat)
    (lbl : Option (List Nat)) (d td now : Nat) (segs : List (List Nat))
    (hr : r = (processQuery w rawT td ⟨.ok (some segs), .timerSet raw d tid lbl⟩ now).1)
    (hproc : w.sess.isProcessingQuery = false)
    (hd : d ≠ 0)
    (hq : ¬(trimN (removeWakeWord (List.intercalate [32] segs))).length = 0)
    (hfresh : w.sess.activeTimers.all (fun e => e.1 != tid) = true)
    (hhandle : w.sidePending.all (fun t => t.handle != w.nextHandle) = true) :
    ((tid, w.nextHandle) ∈ r.sess.activeTimers) ∧
    (r.sess.activeTimers.countP (fun e => e.1 == tid) = 1) ∧
    ((⟨w.nextHandle, tid, lbl, d * 1000⟩ : SideTimer) ∈ r.sidePending) ∧
    (r.sidePending.countP (fun t => t.handle == w.nextHandle) = 1) ∧
    (∃ w2, fireSideTimer r w.nextHandle
        = some (w2, [Ev.showWrapped (timerUpMsg lbl) 30 8000]) ∧
      w2.sess.activeTimers.countP (fun e => e.1 == tid) = 0 ∧
      w2.sidePending.countP (fun t => t.handle == w.nextHandle) = 0 ∧
      fireSideTimer w2 w.nextHandle = none) ∧
    ((cleanup r).sess.activeTimers = []) ∧
    ((cleanup r).sidePending.all (fun t => t.handle != w.nextHandle) = true) ∧
    (fireSideTimer (cleanup r) w.nextHandle = none) := by
  have hfresh2 : ∀ e ∈ w.sess.activeTimers, ¬(e.1 == tid) = true := by
    intro e he
    have := (List.all_eq_true.mp hfresh) e he
    simpa using this
  have hhandle2 : ∀ t ∈ w.sidePending, ¬(t.handle == w.nextHandle) = true := by
    intro t ht
    have := (List.all_eq_true.mp hhandle) t ht
    simpa using this
  have hA : w.sess.activeTimers.any (fun e => e.1 == tid) = false := by
    rw [List.any_eq_false]
    exact hfresh2
  have hmap : mapSet w.sess.activeTimers tid w.nextHandle
      = w.sess.activeTimers ++ [(tid, w.nextHandle)] := by
    unfold mapSet
    rw [hA]
    simp
  have hract : r.sess.activeTimers = w.sess.activeTimers ++ [(tid, w.nextHandle)] := by
    rw [hr]
    simp [processQuery, hproc, tryBlock, hq, hd, finallyBlock, hmap]
  have hrside : r.sidePending
      = w.sidePending ++ [⟨w.nextHandle, tid, lbl, d * 1000⟩] := by
    rw [hr]
    simp [processQuery, hproc, tryBlock, hq, hd, finallyBlock]
  have hSfind : w.sidePending.find? (fun t => t.handle == w.nextHandle) = none :=
    List.find?_eq_none.mpr hhandle2
  have hcountA : w.sess.activeTimers.countP (fun e => e.1 == tid) = 0 :=
    List.countP_eq_zero.mpr hfresh2
  have hcountS : w.sidePending.countP (fun t => t.handle == w.nextHandle) = 0 :=
    List.countP_eq_zero.mpr hhandle2
  have hfilterA : w.sess.activeTimers.filter (fun e => e.1 != tid) = w.sess.activeTimers :=
    List.filter_eq_self.mpr (List.all_eq_true.mp hfresh)
  have hfilterS : w.sidePending.filter (fun t => t.handle != w.nextHandle) = w.sidePending :=
    List.filter_eq_self.mpr (List.all_eq_true.mp hhandle)
  have hfind : r.sidePending.find? (fun t => t.handle == w.nextHandle)
      = some ⟨w.nextHandle, tid, lbl, d * 1000⟩ := by
    rw [hrside, find?_append_none _ _ _ hSfind]
    simp
  refine ⟨?_, ?_, ?_, ?_, ?_, ?_, ?_, ?_⟩
  · rw [hract]
    simp
  · rw [hract, List.countP_append, hcountA]
    simp
  · rw [hrside]
    simp
  · rw [hrside, List.countP_append, hcountS]
    simp
  · have hw2side : r.sidePending.filter (fun u => u.handle != w.nextHandle)
        = w.sidePending := by
      rw [hrside, List.filter_append, hfilterS]
      simp
    have hw2act : r.sess.activeTimers.filter (fun e => e.1 != tid)
        = w.sess.activeTimers := by
      rw [hract, List.filter_append, hfilterA]
      simp
    refine ⟨{ r with
        sidePending := r.sidePending.filter (fun u => u.handle != w.nextHandle)
        sess := { r.sess with
          activeTimers := r.sess.activeTimers.filter (fun e => e.1 != tid) } },
      fireSideTimer_some r w.nextHandle _ hfind, ?_, ?_, ?_⟩
    · show (r.sess.activeTimers.filter (fun e => e.1 != tid)).countP
          (fun e => e.1 == tid) = 0
      rw [hw2act]
      exact hcountA
    · show (r.sidePending.filter (fun u => u.handle != w.nextHandle)).countP
          (fun t => t.handle == w.nextHandle) = 0
      rw [hw2side]
      exact hcountS
    · refine fireSideTimer_none _ _ ?_
      show (r.sidePending.filter (fun u => u.handle != w.nextHandle)).find?
          (fun t => t.handle == w.nextHandle) = none
      rw [hw2side]
      exact hSfind
  · simp [cleanup]
  · rw [List.all_eq_true]
    intro t ht
    simp only [cleanup, List.mem_filter] at ht
    rw [hrside] at ht
    rcases List.mem_append.mp ht.1 with hmem | hmem
    · exact (List.all_eq_true.mp hhandle) t hmem
    · exfalso
      simp only [List.mem_singleton] at hmem
      subst hmem
      have hin : w.sess.activeTimers ++ [(tid, w.nextHandle)]
          = r.sess.activeTimers := hract.symm
      have : r.sess.activeTimers.any (fun e => e.2 == w.nextHandle) = true := by
        rw [← hin]
        simp
      rw [this] at ht
      simp at ht
  · refine fireSideTimer_none _ _ ?_
    rw [List.find?_eq_none]
    intro t ht
    simp only [cleanup, List.mem_filter] at ht
    rw [hrside] at ht
    rcases List.mem_append.mp ht.1 with hmem | hmem
    · exact hhandle2 t hmem
    · simp only [List.mem_singleton] at hmem
      subst hmem
      have : r.sess.activeTimers.any (fun e => e.2 == w.nextHandle) = true := by
        rw [hract]
        simp
      rw [this] at ht
      simp at ht

/-- ASCII lower-casing is idempotent. -/
theorem toLowerN_idem (n : Nat) : toLowerN (toLowerN n) = toLowerN n := by
  unfold toLowerN
  split_ifs <;> omega

/-- A map that fixes every element is the identity. -/
theorem map_id_of {α : Type} (f : α → α) :
    ∀ (l : List α), (∀ c ∈ l, f c = c) → l.map f = l
  | [], _ => rfl
  | a :: t, h => by
    rw [List.map_cons, h a (List.mem_cons_self a t),
      map_id_of f t (fun c hc => h c (List.mem_cons_of_mem a hc))]

/-- Every character of the collapsed text is a space or a non-whitespace
character of the input. -/
theorem mem_collapseAux :
    ∀ (l : List Nat) (b : Bool) (c : Nat), c ∈ collapseAux l b →
      c = 32 ∨ (c ∈ l ∧ isWsN c = false)
  | [], _, c, h => by simp [collapseAux] at h
  | a :: t, b, c, h => by
    unfold collapseAux at h
    split at h
    · split at h
      · rcases mem_collapseAux t true c h with h1 | h2
        · exact Or.inl h1
        · exact Or.inr ⟨List.mem_cons_of_mem _ h2.1, h2.2⟩
      · rcases List.mem_cons.mp h with h1 | h1
        · exact Or.inl h1
        · rcases mem_collapseAux t true c h1 with h2 | h3
          · exact Or.inl h2
          · exact Or.inr ⟨List.mem_cons_of_mem _ h3.1, h3.2⟩
    · rcases List.mem_cons.mp h with h1 | h1
      · subst h1
        refine Or.inr ⟨List.mem_cons_self _ _, ?_⟩
        simp_all
      · rcases mem_collapseAux t false c h1 with h2 | h3
        · exact Or.inl h2
        · exact Or.inr ⟨List.mem_cons_of_mem _ h3.1, h3.2⟩

/-- After a whitespace run has just been absorbed, the collapsed text never
starts with whitespace. -/
theorem collapseAux_true_head :
    ∀ (l : List Nat) (c : Nat) (t : List Nat),
      collapseAux l true = c :: t → isWsN c = false
  | [], c, t, h => by simp [collapseAux] at h
  | a :: r, c, t, h => by
    unfold collapseAux at h
    split at h
    · exact collapseAux_true_head r c t h
    · rw [List.cons.injEq] at h
      rw [← h.1]
      simp_all

/-- The collapsed text has no two adjacent whitespace characters. -/
theorem chain_collapseAux :
    ∀ (l : List Nat) (b : Bool), List.Chain' noAdj (collapseAux l b)
  | [], _ => by simp [collapseAux]
  | a :: t, b => by
    unfold collapseAux
    split
    · split
      · exact chain_collapseAux t true
      · rw [List.chain'_cons']
        refine ⟨?_, chain_collapseAux t true⟩
        intro y hy
        cases hh : collapseAux t true with
        | nil => rw [hh] at hy; simp at hy
        | cons c r =>
          rw [hh] at hy
          simp only [List.head?_cons, Option.mem_def, Option.some.injEq] at hy
          subst hy
          exact fun hcon => by
            rw [collapseAux_true_head t c r hh] at hcon
            exact absurd hcon.2 (by simp)
    · rw [List.chain'_cons']
      refine ⟨?_, chain_collapseAux t false⟩
      intro y hy
      exact fun hcon => by simp_all

/-- Collapsing is the identity on text with only isolated plain spaces as
whitespace that does not start with whitespace unless allowed. -/
theorem collapseAux_fix :
    ∀ (l : List Nat), (∀ c ∈ l, isWsN c = true → c = 32) →
      List.Chain' noAdj l →
      ∀ (b : Bool), (b = true → ∀ c t, l = c :: t → isWsN c = false) →
      collapseAux l b = l
  | [], _, _, _, _ => rfl
  | a :: t, h32, hch, b, hb => by
    unfold collapseAux
    split
    · cases b with
      | true =>
        have hfa := hb rfl a t rfl
        simp_all
      | false =>
        have ha : isWsN a = true := by assumption
        have ha32 : a = 32 := h32 a (List.mem_cons_self a t) ha
        rw [if_neg (by simp)]
        have htail : collapseAux t true = t := by
          refine collapseAux_fix t ?_ (List.Chain'.tail hch) true ?_
          · exact fun c hc => h32 c (List.mem_cons_of_mem a hc)
          · intro _ c r hr
            subst hr
            have := (List.chain'_cons'.mp hch).1 c (by simp)
            by_contra hc
            simp only [Bool.not_eq_false] at hc
            exact this ⟨ha, hc⟩
        rw [htail, ha32]
    · have htail : collapseAux t false = t := by
        refine collapseAux_fix t ?_ (List.Chain'.tail hch) false ?_
        · exact fun c hc => h32 c (List.mem_cons_of_mem a hc)
        · intro hfalse
          exact absurd hfalse (by simp)
      rw [htail]

/-- The first element surviving `dropWhile` fails the predicate. -/
theorem dropWhile_head_false {α : Type} (p : α → Bool) :
    ∀ (l : List α) (c : α) (t : List α), l.dropWhile p = c :: t → p c = false
  | [], c, t, h => by simp [List.dropWhile] at h
  | a :: r, c, t, h => by
    rw [List.dropWhile_cons] at h
    split at h
    · exact dropWhile_head_false p r c t h
    · rw [List.cons.injEq] at h
      rw [← h.1]
      simp_all

/-- A nonempty suffix has the same last element as the whole list. -/
theorem suffix_getLast? {α : Type} (l1 l2 : List α) (h : l1 <:+ l2)
    (hne : l1 ≠ []) : l1.getLast? = l2.getLast? := by
  obtain ⟨pre, hpre⟩ := h
  rw [← hpre, List.getLast?_append_of_ne_nil pre hne]

/-- Trimmed text never starts with whitespace. -/
theorem trimN_head_false (l : List Nat) (c : Nat) (t : List Nat)
    (h : trimN l = c :: t) : isWsN c = false := by
  unfold trimN at h
  have hC : ((l.dropWhile (fun c => isWsN c)).reverse.dropWhile
      (fun c => isWsN c)) ≠ [] := by
    intro hnil
    rw [hnil] at h
    simp at h
  have hhead : ((l.dropWhile (fun c => isWsN c)).reverse.dropWhile
      (fun c => isWsN c)).getLast? = some c := by
    rw [← List.head?_reverse, h]
    rfl
  rw [suffix_getLast? _ _ (List.dropWhile_suffix _) hC, List.getLast?_reverse] at hhead
  cases hA : l.dropWhile (fun c => isWsN c) with
  | nil => rw [hA] at hhead; simp at hhead
  | cons a r =>
    rw [hA] at hhead
    simp only [List.head?_cons, Option.some.injEq] at hhead
    subst hhead
    exact dropWhile_head_false _ l a r hA

/-- Trimmed text never ends with whitespace. -/
theorem trimN_last_false (l : List Nat) (c : Nat) (t : List Nat)
    (h : (trimN l).reverse = c :: t) : isWsN c = false := by
  unfold trimN at h
  rw [List.reverse_reverse] at h
  exact dropWhile_head_false _ _ c t h

/-- Characters of the trimmed text come from the text. -/
theorem mem_trimN (l : List Nat) (c : Nat) (h : c ∈ trimN l) : c ∈ l := by
  unfold trimN at h
  rw [List.mem_reverse] at h
  have h2 := (List.dropWhile_sublist _).mem h
  rw [List.mem_reverse] at h2
  exact (List.dropWhile_sublist _).mem h2

/-- `noAdj` chains survive trimming. -/
theorem chain_trimN (l : List Nat) (h : List.Chain' noAdj l) :
    List.Chain' noAdj (trimN l) := by
  have hsymm : ∀ (m : List Nat), List.Chain' noAdj m → List.Chain' noAdj m.reverse := by
    intro m hm
    rw [List.chain'_reverse]
    exact hm.imp (fun a b hab => fun hcon => hab ⟨hcon.2, hcon.1⟩)
  have h1 : List.Chain' noAdj (l.dropWhile (fun c => isWsN c)) :=
    List.Chain'.suffix h (List.dropWhile_suffix _)
  have h2 := hsymm _ h1
  have h3 : List.Chain' noAdj ((l.dropWhile (fun c => isWsN c)).reverse.dropWhile
      (fun c => isWsN c)) :=
    List.Chain'.suffix h2 (List.dropWhile_suffix _)
  exact hsymm _ h3

/-- Trimming is the identity on text with no leading or trailing
whitespace. -/
theorem trimN_fix (l : List Nat)
    (h1 : ∀ c t, l = c :: t → isWsN c = false)
    (h2 : ∀ c t, l.reverse = c :: t → isWsN c = false) :
    trimN l = l := by
  unfold trimN
  have e1 : l.dropWhile (fun c => isWsN c) = l := by
    cases hl : l with
    | nil => rfl
    | cons c t =>
      rw [List.dropWhile_cons, if_neg]
      simp [h1 c t hl]
  rw [e1]
  have e2 : l.reverse.dropWhile (fun c => isWsN c) = l.reverse := by
    cases hl : l.reverse with
    | nil => rfl
    | cons c t =>
      rw [List.dropWhile_cons, if_neg]
      simp [h2 c t hl]
  rw [e2, List.reverse_reverse]

/-- The structural properties of cleaned text: every character is fixed by
lower-casing, is not punctuation, whitespace only as plain isolated spaces,
and no whitespace at either end. -/
theorem cleanN_props (x : List Nat) :
    (∀ c ∈ cleanN x, toLowerN c = c) ∧
    (∀ c ∈ cleanN x, isPunctN c = false) ∧
    (∀ c ∈ cleanN x, isWsN c = true → c = 32) ∧
    List.Chain' noAdj (cleanN x) ∧
    (∀ c t, cleanN x = c :: t → isWsN c = false) ∧
    (∀ c t, (cleanN x).reverse = c :: t → isWsN c = false) := by
  have hmem : ∀ c ∈ cleanN x,
      c = 32 ∨ (c ∈ (x.map toLowerN).filter (fun c => !isPunctN c) ∧ isWsN c = false) := by
    intro c hc
    have h2 := mem_trimN _ _ hc
    exact mem_collapseAux _ _ _ h2
  refine ⟨?_, ?_, ?_, ?_, trimN_head_false _, trimN_last_false _⟩
  · intro c hc
    rcases hmem c hc with h | h
    · subst h; decide
    · have := List.mem_filter.mp h.1
      rcases List.mem_map.mp this.1 with ⟨a, _, ha⟩
      rw [← ha]
      exact toLowerN_idem a
  · intro c hc
    rcases hmem c hc with h | h
    · subst h; decide
    · have := List.mem_filter.mp h.1
      simpa using this.2
  · intro c hc _
    rcases hmem c hc with h | h
    · exact h
    · simp_all
  · exact chain_trimN _ (chain_collapseAux _ _)

/-- Cleaning is the identity on text that already has the cleaned shape. -/
theorem cleanN_fix (l : List Nat)
    (h1 : ∀ c ∈ l, toLowerN c = c) (h2 : ∀ c ∈ l, isPunctN c = false)
    (h3 : ∀ c ∈ l, isWsN c = true → c = 32) (h4 : List.Chain' noAdj l)
    (h5 : ∀ c t, l = c :: t → isWsN c = false)
    (h6 : ∀ c t, l.reverse = c :: t → isWsN c = false) :
    cleanN l = l := by
  unfold cleanN collapseWs
  rw [map_id_of _ l h1,
    List.filter_eq_self.mpr (fun a ha => by simp [h2 a ha]),
    collapseAux_fix l h3 h4 false (fun hfalse => absurd hfalse (by simp)),
    trimN_fix l h5 h6]

/-- Cleaning is idempotent. -/
theorem cleanN_idem (x : List Nat) : cleanN (cleanN x) = cleanN x := by
  obtain ⟨h1, h2, h3, h4, h5, h6⟩ := cleanN_props x
  exact cleanN_fix _ h1 h2 h3 h4 h5 h6

/-- `endsWithWakeWord` re-cleans its input, so cleaning first changes
nothing. -/
theorem endsWB_cleanN (x : List Nat) :
    endsWithWakeWordB (cleanN x) = endsWithWakeWordB x := by
  unfold endsWithWakeWordB
  simp only [cleanN_idem]

/-- The duration expression computed inside `handleTranscription` (which
tests the pre-cleaned text) equals `codeDur` on the raw fragment text. -/
theorem timerDuration_eq (frag : Frag) :
    (if frag.isFinal then
      (if endsWithWakeWordB (cleanN frag.text) then (10000 : Nat) else 1500)
     else 3000) = codeDur frag := by
  unfold codeDur
  rw [endsWB_cleanN]

/-- C10: the fragment normalization (lower-case, strip `.,!?;:`, collapse
whitespace runs, trim) is idempotent, and consequently `endsWithWakeWord`
returns the same answer on the raw text and on the already-cleaned text. -/
theorem C10_normalization_idempotent (x : List Nat) :
    cleanN (cleanN x) = cleanN x ∧
    endsWithWakeWordB (cleanN x) = endsWithWakeWordB x := by
  obtain ⟨h1, h2, h3, h4, h5, h6⟩ := cleanN_props x
  have hidem : cleanN (cleanN x) = cleanN x := cleanN_fix _ h1 h2 h3 h4 h5 h6
  refine ⟨hidem, ?_⟩
  unfold endsWithWakeWordB
  simp only [hidem]

/-- `handleTranscription` never changes the processing flag. -/
theorem handle_proc_eq (w : World) (frag : Frag) (now : Nat) :
    (handleTranscription w frag now).1.sess.isProcessingQuery
      = w.sess.isProcessingQuery := by
  simp only [handleTranscription]
  split
  · rfl
  · split
    · rfl
    · rfl

/-- `handleTranscription` keeps a listening session listening. -/
theorem handle_listening (w : World) (frag : Frag) (now : Nat)
    (h : w.sess.isListeningToQuery = true) :
    (handleTranscription w frag now).1.sess.isListeningToQuery = true := by
  simp only [handleTranscription]
  split
  · exact h
  · split
    · exact h
    · rfl

/-- On an accepted fragment (session listening, not processing) the handler
cancels the referenced debounce timeout and appends exactly one fresh one
carrying the fragment text and the computed duration. -/
theorem handle_accept (w : World) (frag : Frag) (now : Nat)
    (hproc : w.sess.isProcessingQuery = false)
    (hacc : hasWakeWordB (cleanN frag.text) = true ∨ w.sess.isListeningToQuery = true) :
    (handleTranscription w frag now).1.debounce
      = clearDebounce w.debounce w.sess.timeoutId
          ++ [⟨w.nextHandle, frag.text, codeDur frag⟩] ∧
    (handleTranscription w frag now).1.sess.timeoutId = some w.nextHandle := by
  have hcond : (!hasWakeWordB (cleanN frag.text) && !w.sess.isListeningToQuery) = false := by
    rcases hacc with h | h <;> simp [h]
  refine ⟨?_, ?_⟩ <;>
    simp only [handleTranscription, hproc, Bool.false_eq_true, if_false, hcond]
  rw [← timerDuration_eq frag]

/-- `handleTranscription` preserves the debounce invariant. -/
theorem handle_dbInv (w : World) (frag : Frag) (now : Nat)
    (hinv : dbInvB w = true) : dbInvB (handleTranscription w frag now).1 = true := by
  simp only [handleTranscription]
  split
  · exact hinv
  · split
    · exact hinv
    · simp [dbInvB, clearDebounce_of_inv w hinv]

/-- The debounce invariant bounds the pending debounce timeouts by one. -/
theorem dbInv_len (w : World) (hinv : dbInvB w = true) : w.debounce.length ≤ 1 := by
  unfold dbInvB at hinv
  cases hT : w.sess.timeoutId with
  | none =>
    rw [hT] at hinv
    rw [List.isEmpty_iff] at hinv
    simp [hinv]
  | some h =>
    rw [hT] at hinv
    have : (w.debounce.map (fun t => t.handle)).length = 1 := by
      rw [beq_iff_eq] at hinv
      rw [hinv]
      rfl
    rw [List.length_map] at this
    omega

/-- C4: at most one debounce timer is ever pending (scheduling always
cancels the referenced one first), and a rapid sequence of accepted
fragments in a listening session leaves exactly one pending timer, whose
duration is the one computed for the last fragment. -/
theorem C4_single_pending_debounce :
    (∀ (w : World) (frag : Frag) (now : Nat), dbInvB w = true →
      dbInvB (handleTranscription w frag now).1 = true ∧
      (handleTranscription w frag now).1.debounce.length ≤ 1) ∧
    (∀ (w : World) (fs : List (Frag × Nat)) (frag : Frag) (now : Nat),
      dbInvB w = true → w.sess.isProcessingQuery = false →
      w.sess.isListeningToQuery = true →
      ∃ h, (stepFrags w (fs ++ [(frag, now)])).debounce
          = [⟨h, frag.text, codeDur frag⟩] ∧
        (stepFrags w (fs ++ [(frag, now)])).sess.timeoutId = some h) := by
  constructor
  · intro w frag now hinv
    have h1 := handle_dbInv w frag now hinv
    exact ⟨h1, dbInv_len _ h1⟩
  · intro w fs
    induction fs generalizing w with
    | nil =>
      intro frag now hinv hproc hl
      have ha := handle_accept w frag now hproc (Or.inr hl)
      refine ⟨w.nextHandle, ?_, ?_⟩
      · show (handleTranscription w frag now).1.debounce = _
        rw [ha.1, clearDebounce_of_inv w hinv]
        rfl
      · exact ha.2
    | cons p fs ih =>
      intro frag now hinv hproc hl
      show ∃ h, (stepFrags (handleTranscription w p.1 p.2).1 (fs ++ [(frag, now)])).debounce
          = _ ∧ _
      exact ih (handleTranscription w p.1 p.2).1
        frag now
        (handle_dbInv w p.1 p.2 hinv)
        (by rw [handle_proc_eq]; exact hproc)
        (handle_listening w p.1 p.2 hl)

/-- Witness for C4: preservation at a concrete state, and a concrete
two-fragment burst leaving exactly the last fragment's timer. -/
theorem C4_witness :
    (dbInvB (handleTranscription wA ⟨ofStr "hey mira", false⟩ 100).1 = true ∧
     (handleTranscription wA ⟨ofStr "hey mira", false⟩ 100).1.debounce.length ≤ 1) ∧
    (∃ h, (stepFrags wA ([(⟨ofStr "hey mira", true⟩, 100)]
          ++ [(⟨ofStr "hey mira what time", true⟩, 200)])).debounce
        = [⟨h, ofStr "hey mira what time", codeDur ⟨ofStr "hey mira what time", true⟩⟩] ∧
      (stepFrags wA ([(⟨ofStr "hey mira", true⟩, 100)]
          ++ [(⟨ofStr "hey mira what time", true⟩, 200)])).sess.timeoutId = some h) :=
  ⟨C4_single_pending_debounce.1 wA ⟨ofStr "hey mira", false⟩ 100 (by decide),
   C4_single_pending_debounce.2 wA [(⟨ofStr "hey mira", true⟩, 100)]
     ⟨ofStr "hey mira what time", true⟩ 200 (by decide) rfl rfl⟩

/-- C5: for every accepted fragment the scheduled debounce duration is
10000 ms for a final fragment whose normalized text ends with a wake-phrase
variant, 1500 ms for a final fragment that does not, and 3000 ms for a
non-final fragment. -/
theorem C5_debounce_durations (w : World) (frag : Frag) (now : Nat)
    (hproc : w.sess.isProcessingQuery = false)
    (hacc : hasWakeWordB (cleanN frag.text) = true ∨ w.sess.isListeningToQuery = true) :
    ((handleTranscription w frag now).1.debounce.getLast?).map (fun t => t.durationMs)
      = some (if frag.isFinal then
          (if endsWithWakeWordB frag.text then 10000 else 1500)
        else 3000) := by
  have ha := handle_accept w frag now hproc hacc
  rw [ha.1, List.getLast?_concat]
  rfl

/-- Witness for C5 at a wake-phrase-only final fragment (long wait). -/
theorem C5_witness :
    ((handleTranscription wA ⟨ofStr "hey mira", true⟩ 100).1.debounce.getLast?).map
      (fun t => t.durationMs) = some 10000 :=
  C5_debounce_durations wA ⟨ofStr "hey mira", true⟩ 100 rfl (Or.inr rfl)

/-- No wake phrase matches at the end of the text. -/
theorem matchAnyPhrase_nil : matchAnyPhrase [] = none := by decide

/-- A failed scan means no wake phrase matches at any position. -/
theorem rwwScan_none_all : ∀ (t : List Nat), rwwScan t = none →
    ∀ j, matchAnyPhrase (t.drop j) = none
  | [], _, j => by simpa using matchAnyPhrase_nil
  | c :: rest, h, j => by
    have hsplit : matchAnyPhrase (c :: rest) = none ∧ rwwScan rest = none := by
      unfold rwwScan at h
      cases hm : matchAnyPhrase (c :: rest) with
      | some rem => rw [hm] at h; simp at h
      | none =>
        rw [hm] at h
        refine ⟨rfl, ?_⟩
        cases hs : rwwScan rest with
        | none => rfl
        | some pr => rw [hs] at h; simp at h
    cases j with
    | zero => exact hsplit.1
    | succ j => exact rwwScan_none_all rest hsplit.2 j

/-- If no wake phrase matches at any position, the scan fails. -/
theorem rwwScan_none_of : ∀ (t : List Nat),
    (∀ j, matchAnyPhrase (t.drop j) = none) → rwwScan t = none
  | [], _ => rfl
  | c :: rest, h => by
    have h0 : matchAnyPhrase (c :: rest) = none := by simpa using h 0
    have hr : rwwScan rest = none :=
      rwwScan_none_of rest (fun j => by simpa using h (j + 1))
    unfold rwwScan
    simp [h0, hr]

/-- The scan returns the leftmost wake-phrase match: if a phrase matches at
position `k` and at no earlier position, the scan yields the prefix before
`k` and the remainder after the match. -/
theorem rwwScan_some_of : ∀ (t : List Nat) (k : Nat) (rem : List Nat),
    matchAnyPhrase (t.drop k) = some rem →
    (∀ j, j < k → matchAnyPhrase (t.drop j) = none) →
    rwwScan t = some (t.take k, rem)
  | t, 0, rem, hm, _ => by
    cases t with
    | nil =>
      rw [List.drop_nil, matchAnyPhrase_nil] at hm
      exact absurd hm (by simp)
    | cons c rest =>
      rw [List.drop_zero] at hm
      unfold rwwScan
      rw [hm]
      rfl
  | t, k + 1, rem, hm, hj => by
    cases t with
    | nil =>
      rw [List.drop_nil, matchAnyPhrase_nil] at hm
      exact absurd hm (by simp)
    | cons c rest =>
      have h0 : matchAnyPhrase (c :: rest) = none := by
        simpa using hj 0 (Nat.succ_pos k)
      have hr := rwwScan_some_of rest k rem (by simpa using hm)
        (fun j hjk => by simpa using hj (j + 1) (Nat.succ_lt_succ hjk))
      unfold rwwScan
      simp [h0, hr]

/-- C6 (counterexample): on an input with surrounding whitespace and no
wake-phrase occurrence, `removeWakeWord` does not return the input
unchanged but trims it; and with a line terminator before the wake phrase,
the text before the line terminator is kept, so not everything from the
start is deleted. -/
theorem C6_counterexample :
    rwwScan (ofStr "  hello  ") = none ∧
    removeWakeWord (ofStr "  hello  ") = ofStr "hello" ∧
    ofStr "hello" ≠ ofStr "  hello  " ∧
    removeWakeWord (ofStr "abc\nhey mira what") = ofStr "abc\nwhat" ∧
    ofStr "abc\nwhat" ≠ ofStr "what" := by
  exact ⟨by decide, by decide, by decide, by decide, by decide⟩

/-- C6 (amended): if no wake phrase matches (with `[\s,.]`-separated words,
case-insensitively) at any position of the text, `removeWakeWord` returns
the input trimmed (not unchanged); and if the first match is at position
`k`, it deletes from the start of the line containing the match (keeping
everything up to the last line terminator before `k`, since `.` does not
match line terminators) through the phrase and its trailing separators,
returning the remainder trimmed. -/
theorem C6_removeWakeWord_characterization (t : List Nat) :
    ((∀ j, matchAnyPhrase (t.drop j) = none) → removeWakeWord t = trimN t) ∧
    (∀ k rem, matchAnyPhrase (t.drop k) = some rem →
      (∀ j, j < k → matchAnyPhrase (t.drop j) = none) →
      removeWakeWord t = trimN (uptoLastTerm (t.take k) ++ rem)) := by
  constructor
  · intro h
    unfold removeWakeWord
    rw [rwwScan_none_of t h]
  · intro k rem hm hj
    unfold removeWakeWord
    rw [rwwScan_some_of t k rem hm hj]

/-- Witness for C6 (amended) at a concrete first match at position 6. -/
theorem C6_witness :
    removeWakeWord (ofStr "x sir hey mira open maps")
      = trimN (uptoLastTerm ((ofStr "x sir hey mira open maps").take 6)
          ++ ofStr "open maps") :=
  (C6_removeWakeWord_characterization (ofStr "x sir hey mira open maps")).2 6
    (ofStr "open maps") (by decide) (by decide)

/-- Witness for C9 at a concrete 5-second timer with id "t1". -/
theorem C9_witness :
    ((ofStr "t1", 8) ∈ rTimer.sess.activeTimers) ∧
    (rTimer.sess.activeTimers.countP (fun e => e.1 == ofStr "t1") = 1) ∧
    ((⟨8, ofStr "t1", none, 5000⟩ : SideTimer) ∈ rTimer.sidePending) ∧
    (rTimer.sidePending.countP (fun t => t.handle == 8) = 1) ∧
    (∃ w2, fireSideTimer rTimer 8
        = some (w2, [Ev.showWrapped (timerUpMsg none) 30 8000]) ∧
      w2.sess.activeTimers.countP (fun e => e.1 == ofStr "t1") = 0 ∧
      w2.sidePending.countP (fun t => t.handle == 8) = 0 ∧
      fireSideTimer w2 8 = none) ∧
    ((cleanup rTimer).sess.activeTimers = []) ∧
    ((cleanup rTimer).sidePending.all (fun t => t.handle != 8) = true) ∧
    (fireSideTimer (cleanup rTimer) 8 = none) :=
  C9_timer_set_lifecycle wA rTimer [] (ofStr "raw") (ofStr "t1") none 5 1500 2005
    [ofStr "hey mira set a timer"] rfl rfl (by decide) (by decide) (by decide) (by decide)

end Mira
